import Mathlib

/-!
Verification of `src/start-express-app.ts` from `routing-controllers-wrapper`.

The TypeScript source is shallowly embedded: controller classes are
represented by their names (the only property the orchestration code reads),
JavaScript strings by Lean `String`, JavaScript objects by structures, the
thrown `N9Error` by an `Except.error` value, and the asynchronous bootstrap
sequence by a pure function that records the ordered list of observable
startup actions (an event trace) together with its outcome.  JavaScript
numbers that flow through `Number.parseFloat` / `toFixed` are modelled as
exact decimal values (an integer mantissa with a power-of-ten scale), which
coincides with IEEE double behaviour on every value exercised here.
-/

/-! ## Handler registry builder (`createNestAppModule`, lines 23-46) -/

/-- Lexicographic order on character lists, modelling the default
JavaScript `Array.prototype.sort` comparison of controller-name strings. -/
def charListLe : List Char → List Char → Bool
  | [], _ => true
  | _ :: _, [] => false
  | a :: as, b :: bs => if a = b then charListLe as bs else decide (a < b)

/-- String comparison used to model `Array.prototype.sort()` on names. -/
def nameLe (a b : String) : Bool := charListLe a.data b.data

/-- `nameLe` as a relation, for use with `List.insertionSort`. -/
def NameLeR (a b : String) : Prop := nameLe a b = true

instance : DecidableRel NameLeR := fun a b => instDecidableEqBool (nameLe a b) true

/-- Model of `Array.prototype.sort()` on the name array.  `nameLe` is a
total, transitive and antisymmetric comparison (proved below), so the
sorted permutation is unique and any correct sort implements it. -/
def sortNames (l : List String) : List String := l.insertionSort NameLeR

/-- `_.uniqBy(controllers, 'name')`: keep the first controller for each
name, walking the array left to right (`seen` holds names already kept). -/
def uniqByAux : List String → List String → List String
  | _, [] => []
  | seen, a :: t => if a ∈ seen then uniqByAux seen t else a :: uniqByAux (a :: seen) t

/-- Insertion into a JavaScript `Set` (insertion order, no duplicates). -/
def addToSet (s : List String) (x : String) : List String :=
  if x ∈ s then s else s ++ [x]

/-- The loop of lines 30-34: scan adjacent positions of the sorted name
array and add every name equal to its successor to the duplicate set. -/
def collectAdjacentDupsAux (acc : List String) : List String → List String
  | a :: b :: t => collectAdjacentDupsAux (if a == b then addToSet acc a else acc) (b :: t)
  | _ => acc

/-- Accumulator-free description of the adjacent-duplicate scan, used to
reason about `collectAdjacentDupsAux`. -/
def adjDups : List String → List String
  | a :: b :: t => if a == b then a :: adjDups (b :: t) else adjDups (b :: t)
  | _ => []

/-- The `N9Error` thrown on line 35: message, HTTP status, and the
`controllerDuplicatedNames` context attached to it. -/
structure N9Error where
  message : String
  status : Nat
  controllerDuplicatedNames : List String
deriving DecidableEq, Repr

/-- Lines 23-46.  Controllers are represented by their names (the code only
reads the `name` property).  On success the module registers the full
`controllers` array; on duplicates it throws `N9Error` with status 400 and
the set of duplicated names computed by the sorted adjacent scan. -/
def createNestAppModule (controllers : List String) : Except N9Error (List String) :=
  let controllersUniq := uniqByAux [] controllers
  if controllers.length ≠ controllersUniq.length then
    let sorted := sortNames controllers
    Except.error ⟨"duplicated-controller", 400, collectAdjacentDupsAux [] sorted⟩
  else
    Except.ok controllers

/-! ## Request logging adapter (default `logLevel` format function,
lines 53-75, and the morgan stream `write`, lines 117-135) -/

/-- A JavaScript number as produced by `Number.parseFloat` on a decimal
string: sign, integer mantissa and power-of-ten scale
(value = `(-1)^neg * mant / 10^scale`).  Exact where doubles round, which
coincides on every value exercised by the claims. -/
structure DecNum where
  neg : Bool
  mant : Nat
  scale : Nat
deriving DecidableEq, Repr

/-- The rational value denoted by a `DecNum`. -/
def DecNum.toRat (d : DecNum) : ℚ :=
  (if d.neg then -1 else 1) * (d.mant : ℚ) / (10 : ℚ) ^ d.scale

/-- Exact division of a decimal value by `1000` (the `/ 1000` on line 62). -/
def DecNum.divBy1000 (d : DecNum) : DecNum := ⟨d.neg, d.mant, d.scale + 3⟩

/-- Value of a digit run, most significant first. -/
def digitsToNat (l : List Char) : Nat :=
  l.foldl (fun acc c => acc * 10 + (c.toNat - 48)) 0

/-- `Number.parseFloat`: skip leading whitespace, read an optional sign,
an integer digit run and an optional fraction, ignore any trailing junk;
`none` models `NaN` (no digit found).  Exponent notation is not modelled:
morgan renders response times with `toFixed(3)`, which never emits it. -/
def parseFloat (s : String) : Option DecNum :=
  let cs := s.data.dropWhile fun c => c == ' ' || c == '\t' || c == '\n' || c == '\r'
  let signAndRest : Bool × List Char :=
    match cs with
    | '-' :: t => (true, t)
    | '+' :: t => (false, t)
    | _ => (false, cs)
  let ip := signAndRest.2.takeWhile Char.isDigit
  let rest := signAndRest.2.dropWhile Char.isDigit
  let fp :=
    match rest with
    | '.' :: t => t.takeWhile Char.isDigit
    | _ => []
  if ip.isEmpty && fp.isEmpty then none
  else some ⟨signAndRest.1, digitsToNat ip * 10 ^ fp.length + digitsToNat fp, fp.length⟩

/-- The value scaled to six decimal places, rounding to nearest (the tie
cases never arise on morgan inputs, which carry at most three decimals). -/
def toFixed6Units (d : DecNum) : Nat :=
  if d.scale ≤ 6 then d.mant * 10 ^ (6 - d.scale)
  else (d.mant + 10 ^ (d.scale - 6) / 2) / 10 ^ (d.scale - 6)

/-- Left-pad a digit string with zeros to the requested width. -/
def padLeftZeros (len : Nat) (s : String) : String :=
  String.mk (List.replicate (len - s.length) '0') ++ s

/-- `Number.prototype.toFixed(6)`: decimal rendering with exactly six
digits after the point. -/
def toFixed6 (d : DecNum) : String :=
  let units := toFixed6Units d
  (if d.neg then "-" else "")
    ++ toString (units / 1000000) ++ "." ++ padLeftZeros 6 (toString (units % 1000000))

/-- The morgan token values for one completed request (every token yields
a string). -/
structure MorganTokens where
  method : String
  url : String
  status : String
  responseTime : String
  contentLength : String
  requestId : String
deriving DecidableEq, Repr

/-- The object built on lines 57-65 and serialized with `JSON.stringify`;
every field is a string. -/
structure MorganRecord where
  method : String
  requestId : String
  path : String
  status : String
  duration : String
  responseTime : String
  contentLength : String
deriving DecidableEq, Repr

/-- `JSON.stringify` escaping of the characters that require it in the
strings at hand (quote and backslash; control characters never occur in
morgan token values). -/
def jsonEscapeList : List Char → List Char
  | [] => []
  | c :: t => if c = '"' ∨ c = '\\' then '\\' :: c :: jsonEscapeList t else c :: jsonEscapeList t

/-- One `"key":"value"` member of the serialized object, continued by
`rest`. -/
def fieldChunk (key : String) (v : String) (rest : List Char) : List Char :=
  '"' :: key.data ++ '"' :: ':' :: '"' :: jsonEscapeList v.data ++ '"' :: rest

/-- The comma-led members of a serialized object after its first field:
`,"key":"value"` for every pair, continued by `rest`. -/
def commaFieldsChunks : List (String × String) → List Char → List Char
  | [], rest => rest
  | (k, v) :: kvs, rest => ',' :: fieldChunk k v (commaFieldsChunks kvs rest)

/-- The key/value pairs of lines 58-64 that follow the `method` member, in
the serialization order of lines 57-65. -/
def morganTailFields (r : MorganRecord) : List (String × String) :=
  [("request-id", r.requestId), ("path", r.path), ("status", r.status),
    ("duration", r.duration), ("response-time", r.responseTime),
    ("content-length", r.contentLength)]

/-- `JSON.stringify` of a `MorganRecord`, with the key order of
lines 57-65, as a character list. -/
def stringifyMorganRecordData (r : MorganRecord) : List Char :=
  '\x7b' :: fieldChunk "method" r.method (commaFieldsChunks (morganTailFields r) ['\x7d'])

/-- `JSON.stringify` of a `MorganRecord` as a string. -/
def stringifyMorganRecord (r : MorganRecord) : String :=
  String.mk (stringifyMorganRecordData r)

/-- The record built by the JSON branch of the format function
(lines 57-65): `duration` is `parseFloat(response-time) / 1000` rendered
with `toFixed(6)` (dividing an exact decimal by 1000 adds 3 to its scale),
and the request id is parenthesized only when `enableRequestId` is set. -/
def morganRecordOf (enableRequestId : Bool) (t : MorganTokens) : MorganRecord :=
  { method := t.method
    requestId := if enableRequestId then "(" ++ t.requestId ++ ")" else ""
    path := t.url
    status := t.status
    duration :=
      match parseFloat t.responseTime with
      | some d => toFixed6 d.divBy1000
      | none => "NaN"
    responseTime := t.responseTime
    contentLength := t.contentLength }

/-- The JSON branch of the default format function (lines 56-65). -/
def formatLogJSON (enableRequestId : Bool) (t : MorganTokens) : String :=
  stringifyMorganRecord (morganRecordOf enableRequestId t)

/-- The plain branch of the default format function (lines 66-74):
`join(' ')` of the token array (note the literal `'ms - '` element). -/
def formatLogPlain (t : MorganTokens) : String :=
  String.intercalate " " [t.method, t.url, t.status, t.responseTime, "ms - ", t.contentLength]

/-- The default `logLevel` format function (lines 53-75), switching on the
process-wide `formatLogInJSON` flag. -/
def defaultLogFormat (formatLogInJSON enableRequestId : Bool) (t : MorganTokens) : String :=
  if formatLogInJSON then formatLogJSON enableRequestId t else formatLogPlain t

/-- Consume an exact character prefix, or fail. -/
def stripPrefixChars : List Char → List Char → Option (List Char)
  | [], cs => some cs
  | _ :: _, [] => none
  | p :: ps, c :: cs => if c = p then stripPrefixChars ps cs else none

/-- Parse a JSON string body up to its closing quote, undoing the
escaping of `jsonEscapeList`; returns the content and the remainder. -/
def parseJsonStringBody : List Char → Option (List Char × List Char)
  | [] => none
  | c :: rest =>
    if c = '"' then some ([], rest)
    else if c = '\\' then
      match rest with
      | [] => none
      | e :: rest2 =>
        if e = '"' ∨ e = '\\' then
          match parseJsonStringBody rest2 with
          | some (v, r) => some (e :: v, r)
          | none => none
        else none
    else
      match parseJsonStringBody rest with
      | some (v, r) => some (c :: v, r)
      | none => none

/-- Parse one `"key":"value"` member for a known key. -/
def parseField (key : String) (cs : List Char) : Option (String × List Char) :=
  match stripPrefixChars ('"' :: key.data ++ ['"', ':', '"']) cs with
  | some cs1 =>
    match parseJsonStringBody cs1 with
    | some (v, rest) => some (String.mk v, rest)
    | none => none
  | none => none

/-- JSON insignificant whitespace (allowed by `JSON.parse` after the
closing brace; morgan appends a newline to every line it writes). -/
def jsonWhitespace (c : Char) : Bool :=
  c == ' ' || c == '\n' || c == '\t' || c == '\r'

/-- Parse one comma-led `"key":"value"` member per listed key, returning
the values in key order and the remainder. -/
def parseCommaFields : List String → List Char → Option (List String × List Char)
  | [], cs => some ([], cs)
  | k :: ks, cs =>
    match stripPrefixChars [','] cs with
    | none => none
    | some cs1 =>
      match parseField k cs1 with
      | none => none
      | some (v, cs2) =>
        match parseCommaFields ks cs2 with
        | none => none
        | some (vs, cs3) => some (v :: vs, cs3)

/-- `JSON.parse` restricted to the shape the format function emits: a flat
object of the seven string fields of lines 57-65, in that key order,
followed only by whitespace.  Any other line fails, as `JSON.parse` throws
on every non-JSON morgan line. -/
def parseMorganJSONData (cs : List Char) : Option MorganRecord := do
  let cs ← stripPrefixChars ['\x7b'] cs
  let (m, cs) ← parseField "method" cs
  let (vs, cs) ← parseCommaFields
    ["request-id", "path", "status", "duration", "response-time", "content-length"] cs
  let cs ← stripPrefixChars ['\x7d'] cs
  match vs with
  | [rid, p, st, du, rt, cl] =>
    if cs.all jsonWhitespace then pure ⟨m, rid, p, st, du, rt, cl⟩ else none
  | _ => none

/-- `JSON.parse(message)` on line 121, as used by the stream adapter. -/
def parseMorganJSON (s : String) : Option MorganRecord :=
  parseMorganJSONData s.data

/-- `message.replace('\n', '')`: a string pattern makes JavaScript
`String.prototype.replace` rewrite only the FIRST occurrence. -/
def removeFirstNewlineAux : List Char → List Char
  | [] => []
  | c :: t => if c = '\n' then t else c :: removeFirstNewlineAux t

/-- `message.replace('\n', '')` on a Lean string. -/
def removeFirstNewline (s : String) : String :=
  String.mk (removeFirstNewlineAux s.data)

/-- The metadata object passed as second argument to `options.log.info`:
either the parsed morgan record spread together with the derived
`durationMs` (`none` models `NaN`), or the caught `JSON.parse` error. -/
inductive LogMeta
  | details (record : MorganRecord) (durationMs : Option DecNum)
  | parseFailure
deriving DecidableEq, Repr

/-- One call to the process logger; the adapter only ever calls `info`. -/
inductive LogCall
  | info (message : String) (meta : Option LogMeta)
deriving DecidableEq, Repr

/-- The morgan stream `write` (lines 117-135).  It is a total function:
the `try`/`catch` turns a parse failure into a degraded plain log call
instead of an exception. -/
def streamWrite (formatLogInJSON : Bool) (message : String) : LogCall :=
  if formatLogInJSON then
    match parseMorganJSON message with
    | some morganDetails =>
        LogCall.info ("api call " ++ morganDetails.path)
          (some (LogMeta.details morganDetails (parseFloat morganDetails.responseTime)))
    | none => LogCall.info (removeFirstNewline message) (some LogMeta.parseFailure)
  else
    LogCall.info (removeFirstNewline message) none

/-! ## Listen lifecycle (`analyzeError`, lines 87-102) and option
defaulting (lines 51-52, 79-82) -/

/-- The defaulted `options.http.port`: `port || process.env.PORT || 5000`
leaves it either the configured number or the environment string. -/
inductive PortV
  | num (n : Nat)
  | str (s : String)
deriving DecidableEq, Repr

/-- Template-literal rendering of the port into an error message. -/
def PortV.render : PortV → String
  | num n => toString n
  | str s => s

/-- `process.env.PORT || 5000`: an empty environment string is falsy. -/
def resolveEnvPort (envPORT : Option String) : PortV :=
  match envPORT with
  | some s => if s ≠ "" then PortV.str s else PortV.num 5000
  | none => PortV.num 5000

/-- Line 52, `options.http.port = options.http.port || process.env.PORT
|| 5000`: a configured port of `0` is falsy and falls through to the
environment. -/
def resolvePort (configured : Option Nat) (envPORT : Option String) : PortV :=
  match configured with
  | some n => if n ≠ 0 then PortV.num n else resolveEnvPort envPORT
  | none => resolveEnvPort envPORT

/-- A Node `ErrnoException` as far as `analyzeError` inspects it. -/
structure ErrnoException where
  syscall : Option String
  code : Option String
  message : String
deriving DecidableEq, Repr

/-- Result of `analyzeError`: the original error passed through, or a
fresh `Error` with a friendly message. -/
inductive AnalyzedError
  | passthrough (e : ErrnoException)
  | friendly (message : String)
deriving DecidableEq, Repr

/-- Lines 87-102: translate only `listen`-syscall failures, and of those
only `EACCES` and `EADDRINUSE`. -/
def analyzeError (port : PortV) (error : ErrnoException) : AnalyzedError :=
  if error.syscall ≠ some "listen" then AnalyzedError.passthrough error
  else
    match error.code with
    | some "EACCES" =>
        AnalyzedError.friendly ("Port " ++ port.render ++ " requires elevated privileges")
    | some "EADDRINUSE" =>
        AnalyzedError.friendly ("Port " ++ port.render ++ " is already in use")
    | _ => AnalyzedError.passthrough error

/-! ## Bootstrap sequence (`startExpressApp`, lines 48-191) -/

/-- A caller-supplied `logLevel`: `false`/`true`, a morgan format string,
or a format function (truthiness follows JavaScript). -/
inductive LogLevelV
  | bool (b : Bool)
  | formatStr (s : String)
  | fn
deriving DecidableEq, Repr

/-- JavaScript truthiness of a `logLevel` value. -/
def LogLevelV.truthy : LogLevelV → Bool
  | bool b => b
  | formatStr s => s != ""
  | fn => true

/-- Line 53: an absent (`undefined`) `logLevel` is replaced by the default
format function; any supplied value, truthy or not, is kept. -/
def resolveLogLevel (configured : Option LogLevelV) : LogLevelV :=
  configured.getD LogLevelV.fn

/-- The `class-validator` options the bootstrap cares about. -/
structure ValidatorOptions where
  whitelist : Bool
  forbidNonWhitelisted : Bool
deriving DecidableEq, Repr

/-- Lines 79-82: the assignment replaces whatever the caller put in
`options.http.validation` with the fixed whitelist configuration. -/
def overwriteValidation (_configured : Option ValidatorOptions) : ValidatorOptions :=
  ⟨true, true⟩

/-- The argument object of `new ValidationPipe({transform: true,
...options.http.validation})` on lines 154-157. -/
structure PipeConfig where
  transform : Bool
  validation : ValidatorOptions
deriving DecidableEq, Repr

/-- A user hook modelled by its awaited outcome. -/
inductive HookSpec
  | succeeds
  | fails (msg : String)
deriving DecidableEq, Repr

/-- `options.http` as consumed by `startExpressApp`. -/
structure HttpOptions where
  port : Option Nat
  logLevel : Option LogLevelV
  validation : Option ValidatorOptions
  preventListen : Bool
  beforeRoutingControllerLaunchHook : Option HookSpec
  afterRoutingControllerLaunchHook : Option HookSpec
deriving DecidableEq, Repr

/-- The bootstrap options; `controllers` stands for the controller classes
discovered under `options.path` (represented by their names). -/
structure Options where
  controllers : List String
  enableRequestId : Bool
  http : HttpOptions
deriving DecidableEq, Repr

/-- The observable startup actions of `startExpressApp`, in program
order. -/
inductive Event
  | useSetRequestContext
  | useHelmet
  | useSessionLoader
  | useMorgan
  | bindSpecificRoutes
  | createServer
  | beforeHook
  | nestCreate
  | useErrorFilter
  | useValidationPipe (cfg : PipeConfig)
  | nestInit
  | afterHook
  | listen
deriving DecidableEq, Repr

/-- The `{ app, server }` object returned on success (both handles are
opaque to this model). -/
inductive ReturnObject
  | mk
deriving DecidableEq, Repr

/-- The ways a bootstrap run can reject. -/
inductive BootError
  | thrown (e : N9Error)
  | hookFailure (msg : String)
  | listenFailure (e : AnalyzedError)
deriving DecidableEq, Repr

/-- The event trace of one bootstrap run together with its outcome. -/
structure BootResult where
  trace : List Event
  outcome : Except BootError ReturnObject

/-- Invoke-and-await an optional hook: absent hooks are a no-op, a present
hook is invoked (recorded as `ev`) and a failing one yields its error. -/
def runHook (ev : Event) (t : List Event) : Option HookSpec → List Event × Option String
  | none => (t, none)
  | some HookSpec.succeeds => (t ++ [ev], none)
  | some (HookSpec.fails msg) => (t ++ [ev], some msg)

/-- Lines 48-191: option defaulting, middleware installation (request
context, helmet, session loader, and morgan only when the defaulted
`logLevel` is truthy), controller-module construction (which may throw),
route binding, server creation, the before hook, Nest app construction
with the error filter and validation pipe, `init`, the after hook, and
finally `listen` unless `preventListen` is set.  `envPORT` is
`process.env.PORT`; `listenResult` is the OS outcome of the bind
(`some e` means the server emitted an error event `e`). -/
def startExpressApp (opts : Options) (envPORT : Option String)
    (listenResult : Option ErrnoException) : BootResult :=
  let port := resolvePort opts.http.port envPORT
  let logLevel := resolveLogLevel opts.http.logLevel
  let validation := overwriteValidation opts.http.validation
  let t0 := [Event.useSetRequestContext, Event.useHelmet, Event.useSessionLoader]
      ++ (if logLevel.truthy then [Event.useMorgan] else [])
  match createNestAppModule opts.controllers with
  | Except.error e => ⟨t0, Except.error (BootError.thrown e)⟩
  | Except.ok _ =>
    let t1 := t0 ++ [Event.bindSpecificRoutes, Event.createServer]
    match runHook Event.beforeHook t1 opts.http.beforeRoutingControllerLaunchHook with
    | (t2, some msg) => ⟨t2, Except.error (BootError.hookFailure msg)⟩
    | (t2, none) =>
      let t3 := t2 ++ [Event.nestCreate, Event.useErrorFilter,
        Event.useValidationPipe ⟨true, validation⟩, Event.nestInit]
      match runHook Event.afterHook t3 opts.http.afterRoutingControllerLaunchHook with
      | (t4, some msg) => ⟨t4, Except.error (BootError.hookFailure msg)⟩
      | (t4, none) =>
        if opts.http.preventListen then ⟨t4, Except.ok ReturnObject.mk⟩
        else
          match listenResult with
          | some err =>
              ⟨t4 ++ [Event.listen],
                Except.error (BootError.listenFailure (analyzeError port err))⟩
          | none => ⟨t4 ++ [Event.listen], Except.ok ReturnObject.mk⟩

/-- Classifies the four middleware-installation events of lines 111-137. -/
def mwEvent : Event → Bool
  | Event.useSetRequestContext => true
  | Event.useHelmet => true
  | Event.useSessionLoader => true
  | Event.useMorgan => true
  | _ => false

/-- Token values of the request used as a concrete example. -/
def sampleTokens : MorganTokens := ⟨"GET", "/x", "200", "15.234", "42", "abc123"⟩

/-- A concrete options object with no `logLevel` configured. -/
def optsPlain : Options := ⟨["JsonController"], false, ⟨none, none, none, true, none, none⟩⟩

/-- A concrete options object supplying both hooks (both succeeding), an
explicit port, a falsy `logLevel` and a permissive validation object. -/
def optsHooks : Options :=
  ⟨["JsonController"], false,
    ⟨some 3000, some (LogLevelV.bool false), some ⟨false, false⟩, false,
      some HookSpec.succeeds, some HookSpec.succeeds⟩⟩

theorem charListLe_total (a b : List Char) :
    charListLe a b = true ∨ charListLe b a = true := by
  induction a generalizing b with
  | nil => left; rfl
  | cons x xs ih =>
    cases b with
    | nil => right; rfl
    | cons y ys =>
      by_cases hxy : x = y
      · subst hxy
        simpa [charListLe] using ih ys
      · rcases lt_or_gt_of_ne hxy with h | h
        · left; simp [charListLe, hxy, h]
        · right
          have hyx : ¬y = x := fun he => hxy he.symm
          simp only [charListLe, if_neg hyx, decide_eq_true_eq]
          exact h

theorem charListLe_trans (a b c : List Char) (hab : charListLe a b = true)
    (hbc : charListLe b c = true) : charListLe a c = true := by
  induction a generalizing b c with
  | nil => rfl
  | cons x xs ih =>
    cases b with
    | nil => simp [charListLe] at hab
    | cons y ys =>
      cases c with
      | nil => simp [charListLe] at hbc
      | cons z zs =>
        by_cases hxy : x = y <;> by_cases hyz : y = z
        · subst hxy; subst hyz
          simp only [charListLe, if_pos rfl] at hab hbc ⊢
          exact ih ys zs hab hbc
        · subst hxy
          simp only [charListLe, if_pos rfl, if_neg hyz] at hbc ⊢
          exact hbc
        · subst hyz
          simp only [charListLe, if_pos rfl, if_neg hxy] at hab ⊢
          exact hab
        · simp only [charListLe, if_neg hxy, if_neg hyz, decide_eq_true_eq] at hab hbc
          have hxz : x < z := lt_trans hab hbc
          simp [charListLe, ne_of_lt hxz, hxz]

theorem charListLe_antisymm (a b : List Char) (hab : charListLe a b = true)
    (hba : charListLe b a = true) : a = b := by
  induction a generalizing b with
  | nil =>
    cases b with
    | nil => rfl
    | cons y ys => simp [charListLe] at hba
  | cons x xs ih =>
    cases b with
    | nil => simp [charListLe] at hab
    | cons y ys =>
      by_cases hxy : x = y
      · subst hxy
        simp only [charListLe, if_pos rfl] at hab hba
        rw [ih ys hab hba]
      · simp only [charListLe, if_neg hxy, if_neg fun he : y = x => hxy he.symm,
          decide_eq_true_eq] at hab hba
        exact absurd hba (lt_asymm hab)

theorem nameLe_antisymm (a b : String) (hab : nameLe a b = true)
    (hba : nameLe b a = true) : a = b :=
  String.ext (charListLe_antisymm a.data b.data hab hba)

theorem sortNames_sorted (l : List String) : List.Sorted NameLeR (sortNames l) :=
  @List.sorted_insertionSort String NameLeR _
    ⟨fun a b => charListLe_total a.data b.data⟩
    ⟨fun a b c hab hbc => charListLe_trans a.data b.data c.data hab hbc⟩ l

theorem sortNames_perm (l : List String) : (sortNames l).Perm l :=
  List.perm_insertionSort NameLeR l

theorem uniqByAux_length_le (l seen : List String) :
    (uniqByAux seen l).length ≤ l.length := by
  induction l generalizing seen with
  | nil => simp [uniqByAux]
  | cons a t ih =>
    by_cases h : a ∈ seen
    · simp only [uniqByAux, if_pos h, List.length_cons]
      exact le_trans (ih seen) (Nat.le_succ _)
    · simp only [uniqByAux, if_neg h, List.length_cons]
      exact Nat.succ_le_succ (ih (a :: seen))

theorem uniqByAux_length_eq_iff (l seen : List String) :
    (uniqByAux seen l).length = l.length ↔ l.Nodup ∧ ∀ a ∈ l, a ∉ seen := by
  induction l generalizing seen with
  | nil => simp [uniqByAux]
  | cons a t ih =>
    by_cases h : a ∈ seen
    · simp only [uniqByAux, if_pos h, List.length_cons]
      constructor
      · intro hlen
        exact absurd hlen (Nat.ne_of_lt (Nat.lt_succ_of_le (uniqByAux_length_le t seen)))
      · rintro ⟨-, hall⟩
        exact absurd h (hall a (List.mem_cons_self a t))
    · simp only [uniqByAux, if_neg h, List.length_cons, Nat.succ_inj, ih,
        List.nodup_cons, List.mem_cons]
      constructor
      · rintro ⟨hnd, hall⟩
        have hat : a ∉ t := fun hmem => by
          have := hall a hmem
          simp at this
        refine ⟨⟨hat, hnd⟩, ?_⟩
        rintro x (rfl | hx)
        · exact h
        · have := hall x hx
          simp at this
          exact this.2
      · rintro ⟨⟨hat, hnd⟩, hall⟩
        refine ⟨hnd, fun x hx => ?_⟩
        simp only [List.mem_cons, not_or]
        exact ⟨fun he => hat (he ▸ hx), hall x (Or.inr hx)⟩

theorem uniqByAux_nil_length_iff (l : List String) :
    (uniqByAux [] l).length = l.length ↔ l.Nodup := by
  simpa using uniqByAux_length_eq_iff l []

theorem mem_addToSet (s : List String) (x y : String) :
    y ∈ addToSet s x ↔ y ∈ s ∨ y = x := by
  unfold addToSet
  split_ifs with h
  · constructor
    · exact Or.inl
    · rintro (hy | rfl) <;> assumption
  · simp

theorem mem_collectAdjacentDupsAux (l : List String) :
    ∀ acc x, x ∈ collectAdjacentDupsAux acc l ↔ x ∈ acc ∨ x ∈ adjDups l := by
  induction l with
  | nil => intro acc x; simp [collectAdjacentDupsAux, adjDups]
  | cons a t ih =>
    intro acc x
    cases t with
    | nil => simp [collectAdjacentDupsAux, adjDups]
    | cons b t2 =>
      simp only [collectAdjacentDupsAux, adjDups]
      rw [ih]
      by_cases hab : a == b
      · simp only [if_pos hab, mem_addToSet, List.mem_cons]
        tauto
      · simp only [if_neg hab]

theorem adjDups_cons_mem (a b : String) (t : List String) (x : String)
    (h : x ∈ adjDups (b :: t)) : x ∈ adjDups (a :: b :: t) := by
  simp only [adjDups]
  split_ifs with hab
  · exact List.mem_cons_of_mem a h
  · exact h

theorem count_of_mem_adjDups (l : List String) (x : String)
    (h : x ∈ adjDups l) : 2 ≤ l.count x := by
  induction l with
  | nil => simp [adjDups] at h
  | cons a t ih =>
    cases t with
    | nil => simp [adjDups] at h
    | cons b t2 =>
      simp only [adjDups] at h
      by_cases hab : a == b
      · rw [if_pos hab] at h
        have hab' : a = b := by simpa using hab
        rcases List.mem_cons.mp h with rfl | h2
        · subst hab'
          simp [List.count_cons]
        · calc 2 ≤ (b :: t2).count x := ih h2
            _ ≤ ((a :: b :: t2)).count x := by
              simp only [List.count_cons]
              omega
      · rw [if_neg hab] at h
        calc 2 ≤ (b :: t2).count x := ih h
          _ ≤ ((a :: b :: t2)).count x := by
            simp only [List.count_cons]
            omega

theorem mem_adjDups_of_count (l : List String) (x : String)
    (hs : List.Sorted NameLeR l) (hc : 2 ≤ l.count x) : x ∈ adjDups l := by
  induction l with
  | nil => simp at hc
  | cons a t ih =>
    cases t with
    | nil =>
      simp only [List.count_cons, List.count_nil] at hc
      split_ifs at hc <;> omega
    | cons b t2 =>
      rcases List.pairwise_cons.mp hs with ⟨hhead, htail⟩
      by_cases hax : a = x
      · subst hax
        have hmem : a ∈ b :: t2 := by
          rw [← List.count_pos_iff]
          have : (a :: b :: t2).count a = (b :: t2).count a + 1 := by
            simp [List.count_cons]
          omega
        by_cases hab : a = b
        · subst hab
          simp [adjDups]
        · have hat : a ∈ t2 := by
            rcases List.mem_cons.mp hmem with he | h2
            · exact absurd he hab
            · exact h2
          rcases List.pairwise_cons.mp htail with ⟨hb2, -⟩
          have h1 : NameLeR a b := hhead b (List.mem_cons_self b t2)
          have h2 : NameLeR b a := hb2 a hat
          exact absurd (nameLe_antisymm a b h1 h2) hab
      · have hc2 : 2 ≤ (b :: t2).count x := by
          have : (a :: b :: t2).count x = (b :: t2).count x := by
            simp [List.count_cons, beq_iff_eq, hax]
          omega
        exact adjDups_cons_mem a b t2 x (ih htail hc2)

theorem mem_dupNames_iff (l : List String) (x : String) :
    x ∈ collectAdjacentDupsAux [] (sortNames l) ↔ 2 ≤ l.count x := by
  rw [mem_collectAdjacentDupsAux]
  simp only [List.not_mem_nil, false_or]
  have hcount : (sortNames l).count x = l.count x := (sortNames_perm l).count_eq x
  constructor
  · intro h
    rw [← hcount]
    exact count_of_mem_adjDups (sortNames l) x h
  · intro h
    exact mem_adjDups_of_count (sortNames l) x (sortNames_sorted l) (by omega)


theorem suffix_isInfix_of_append (A s t : List Char) (h : s <:+ t) : s <:+: A ++ t :=
  (h.trans (List.suffix_append A t)).isInfix

theorem createNestAppModule_ok (l : List String) (h : l.Nodup) :
    createNestAppModule l = Except.ok l := by
  unfold createNestAppModule
  rw [if_neg]
  intro hne
  exact hne ((uniqByAux_nil_length_iff l).mpr h).symm

/-- C1: `createNestAppModule` throws a status-400 `N9Error` carrying
exactly the set of controller names occurring more than once precisely
when the discovered names contain a repeated name; with all names
distinct it succeeds and registers every controller. -/
theorem createNestAppModule_registry (controllers : List String) :
    match createNestAppModule controllers with
    | Except.error e =>
        ¬controllers.Nodup ∧ (∃ x, 2 ≤ controllers.count x) ∧
        e.message = "duplicated-controller" ∧ e.status = 400 ∧
        ∀ x, x ∈ e.controllerDuplicatedNames ↔ 2 ≤ controllers.count x
    | Except.ok registered =>
        controllers.Nodup ∧ registered.length = controllers.length := by
  unfold createNestAppModule
  by_cases h : controllers.length = (uniqByAux [] controllers).length
  · rw [if_neg (by omega)]
    exact ⟨(uniqByAux_nil_length_iff controllers).mp h.symm, rfl⟩
  · rw [if_pos (by omega)]
    have hnd : ¬controllers.Nodup := fun hn =>
      h ((uniqByAux_nil_length_iff controllers).mpr hn).symm
    have hex : ∃ x, 2 ≤ controllers.count x := by
      rw [List.nodup_iff_count_le_one] at hnd
      push_neg at hnd
      rcases hnd with ⟨x, hx⟩
      exact ⟨x, by omega⟩
    exact ⟨hnd, hex, rfl, rfl, fun x => mem_dupNames_iff controllers x⟩

/-- C6: `analyzeError` passes through every error whose syscall is not
`listen`; for `listen` errors it translates `EACCES` and `EADDRINUSE`
into friendly messages naming the configured port, and passes every other
code through unchanged. -/
theorem analyzeError_spec (port : PortV) (e : ErrnoException) :
    (e.syscall ≠ some "listen" → analyzeError port e = AnalyzedError.passthrough e) ∧
    (e.syscall = some "listen" → e.code = some "EACCES" →
      ∃ m, analyzeError port e = AnalyzedError.friendly m ∧
        port.render.data <:+: m.data ∧
        ("requires elevated privileges" : String).data <:+: m.data) ∧
    (e.syscall = some "listen" → e.code = some "EADDRINUSE" →
      ∃ m, analyzeError port e = AnalyzedError.friendly m ∧
        port.render.data <:+: m.data ∧
        ("is already in use" : String).data <:+: m.data) ∧
    (e.syscall = some "listen" → e.code ≠ some "EACCES" → e.code ≠ some "EADDRINUSE" →
      analyzeError port e = AnalyzedError.passthrough e) := by
  refine ⟨fun hs => by simp [analyzeError, hs], ?_, ?_, ?_⟩
  · intro hs hc
    refine ⟨"Port " ++ port.render ++ " requires elevated privileges",
      by simp [analyzeError, hs, hc], ?_, ?_⟩
    · simp only [String.data_append]
      exact List.infix_append _ _ _
    · simp only [String.data_append]
      exact suffix_isInfix_of_append _ _ _ ⟨[' '], by decide⟩
  · intro hs hc
    refine ⟨"Port " ++ port.render ++ " is already in use",
      by simp [analyzeError, hs, hc], ?_, ?_⟩
    · simp only [String.data_append]
      exact List.infix_append _ _ _
    · simp only [String.data_append]
      exact suffix_isInfix_of_append _ _ _ ⟨[' '], by decide⟩
  · intro hs hc1 hc2
    rcases hcode : e.code with _ | c
    · simp [analyzeError, hs, hcode]
    · have h1 : c ≠ "EACCES" := fun h => hc1 (by rw [hcode, h])
      have h2 : c ≠ "EADDRINUSE" := fun h => hc2 (by rw [hcode, h])
      simp [analyzeError, hs, hcode, h1, h2]

/-- Closed witness for C6 at port 80 with an `EACCES` listen failure. -/
theorem analyzeError_spec_witness :
    ∃ m, analyzeError (PortV.num 80) ⟨some "listen", some "EACCES", "boom"⟩
        = AnalyzedError.friendly m ∧
      (PortV.num 80).render.data <:+: m.data ∧
      ("requires elevated privileges" : String).data <:+: m.data :=
  (analyzeError_spec (PortV.num 80) ⟨some "listen", some "EACCES", "boom"⟩).2.1 rfl rfl

/-- C9 counterexample: with a configured port of `0`, line 52 consults the
environment variable (JavaScript `||` treats `0` as absent), so the
configured port is not used. -/
theorem resolvePort_zero_counterexample :
    resolvePort (some 0) (some "8080") = PortV.str "8080" ∧
    PortV.str "8080" ≠ PortV.num 0 := by decide

/-- C9 (amended): a configured nonzero port wins and the environment is
not consulted; with the port absent or `0`, a present nonempty environment
value wins; otherwise the port is 5000. -/
theorem resolvePort_spec (cfg : Option Nat) (env : Option String) :
    (∀ n, cfg = some n → n ≠ 0 → resolvePort cfg env = PortV.num n) ∧
    (cfg = none ∨ cfg = some 0 →
      (∀ s, env = some s → s ≠ "" → resolvePort cfg env = PortV.str s) ∧
      (env = none ∨ env = some "" → resolvePort cfg env = PortV.num 5000)) := by
  constructor
  · rintro n rfl hn
    simp [resolvePort, hn]
  · rintro (rfl | rfl) <;>
      exact ⟨by rintro s rfl hs; simp [resolvePort, resolveEnvPort, hs],
        by rintro (rfl | rfl) <;> simp [resolvePort, resolveEnvPort]⟩

/-- Closed witness for C9's amended statement. -/
theorem resolvePort_spec_witness :
    resolvePort (some 3000) (some "9999") = PortV.num 3000 :=
  (resolvePort_spec (some 3000) (some "9999")).1 3000 rfl (by decide)

/-- C4: the adapter's `write` is a total function of the input line (no
exception escapes); in structured mode a line that fails to parse as JSON
degrades to a plain `info` call carrying the newline-stripped raw line and
the parse error as metadata. -/
theorem streamWrite_parse_failure (message : String)
    (h : parseMorganJSON message = none) :
    streamWrite true message
      = LogCall.info (removeFirstNewline message) (some LogMeta.parseFailure) := by
  simp [streamWrite, h]

/-- Closed witness for C4 on a plain (non-JSON) morgan line. -/
theorem streamWrite_parse_failure_witness :
    parseMorganJSON "GET /x 200 15.234 ms - 42\n" = none ∧
    streamWrite true "GET /x 200 15.234 ms - 42\n"
      = LogCall.info "GET /x 200 15.234 ms - 42" (some LogMeta.parseFailure) :=
  ⟨by decide, streamWrite_parse_failure "GET /x 200 15.234 ms - 42\n" (by decide)⟩

theorem removeFirstNewlineAux_no_newline (p : List Char) (hp : '\n' ∉ p) :
    removeFirstNewlineAux p = p := by
  induction p with
  | nil => rfl
  | cons c t ih =>
    have hc : c ≠ '\n' := fun h => hp (h ▸ List.mem_cons_self c t)
    simp only [removeFirstNewlineAux, if_neg hc]
    rw [ih fun h => hp (List.mem_cons_of_mem c h)]

theorem removeFirstNewlineAux_first (p s : List Char) (hp : '\n' ∉ p) :
    removeFirstNewlineAux (p ++ '\n' :: s) = p ++ s := by
  induction p with
  | nil => simp [removeFirstNewlineAux]
  | cons c t ih =>
    have hc : c ≠ '\n' := fun h => hp (h ▸ List.mem_cons_self c t)
    simp only [List.cons_append, removeFirstNewlineAux, if_neg hc, List.append_eq]
    rw [ih fun h => hp (List.mem_cons_of_mem c h)]

/-- C5 counterexample: on a line with two newlines, plain mode removes
only the first one (`String.prototype.replace` with a string pattern),
not every newline. -/
theorem streamWrite_plain_counterexample :
    streamWrite false "a\nb\n" = LogCall.info "ab\n" none ∧
    ("ab\n" : String) ≠ "ab" := by decide

/-- C5 (amended): plain mode emits the line via the logger's `info` with
only the FIRST embedded newline removed; a line without a newline — in
particular `"GET /x 200 15.234 ms - 42"` — is emitted exactly unchanged. -/
theorem streamWrite_plain_spec (message : String) :
    streamWrite false message = LogCall.info (removeFirstNewline message) none ∧
    (∀ p s : List Char, '\n' ∉ p →
      removeFirstNewline (String.mk (p ++ '\n' :: s)) = String.mk (p ++ s)) ∧
    (∀ p : List Char, '\n' ∉ p → removeFirstNewline (String.mk p) = String.mk p) ∧
    streamWrite false "GET /x 200 15.234 ms - 42"
      = LogCall.info "GET /x 200 15.234 ms - 42" none := by
  refine ⟨by simp [streamWrite], ?_, ?_, by decide⟩
  · intro p s hp
    simp [removeFirstNewline, removeFirstNewlineAux_first p s hp]
  · intro p hp
    simp [removeFirstNewline, removeFirstNewlineAux_no_newline p hp]

/-- Closed witness for C5's amended statement. -/
theorem streamWrite_plain_spec_witness :
    streamWrite false "a\nb\n" = LogCall.info (removeFirstNewline "a\nb\n") none ∧
    removeFirstNewline (String.mk (['a'] ++ '\n' :: ['b', '\n'])) = String.mk (['a'] ++ ['b', '\n'])
      :=
  ⟨(streamWrite_plain_spec "a\nb\n").1,
    (streamWrite_plain_spec "a\nb\n").2.1 ['a'] ['b', '\n'] (by decide)⟩
theorem stripPrefixChars_append (p r : List Char) :
    stripPrefixChars p (p ++ r) = some r := by
  induction p with
  | nil => rfl
  | cons c t ih => simp [stripPrefixChars, ih]

theorem stripPrefixChars_cons (c : Char) (cs : List Char) :
    stripPrefixChars [c] (c :: cs) = some cs := by
  simp [stripPrefixChars]

theorem parseJsonStringBody_escape (v rest : List Char) :
    parseJsonStringBody (jsonEscapeList v ++ '"' :: rest) = some (v, rest) := by
  induction v with
  | nil =>
    rw [jsonEscapeList, List.nil_append, parseJsonStringBody.eq_def]
    simp
  | cons c t ih =>
    by_cases hc : c = '"' ∨ c = '\\'
    · rw [jsonEscapeList, if_pos hc, List.cons_append, List.cons_append,
        parseJsonStringBody.eq_def]
      dsimp only
      rw [if_neg (by decide : ¬('\\' : Char) = '"'), if_pos rfl, if_pos hc, ih]
    · push_neg at hc
      rw [jsonEscapeList, if_neg (not_or.mpr ⟨hc.1, hc.2⟩), List.cons_append,
        parseJsonStringBody.eq_def]
      dsimp only
      rw [if_neg hc.1, if_neg hc.2, ih]

theorem parseField_chunk (key v : String) (rest : List Char) :
    parseField key (fieldChunk key v rest) = some (v, rest) := by
  have hsplit : fieldChunk key v rest
      = ('"' :: key.data ++ ['"', ':', '"']) ++ (jsonEscapeList v.data ++ '"' :: rest) := by
    simp [fieldChunk]
  rw [parseField, hsplit, stripPrefixChars_append]
  dsimp only
  rw [parseJsonStringBody_escape]

theorem fieldChunk_append (key v : String) (rest tl : List Char) :
    fieldChunk key v rest ++ tl = fieldChunk key v (rest ++ tl) := by
  simp [fieldChunk]

theorem commaFieldsChunks_append (kvs : List (String × String)) (rest tl : List Char) :
    commaFieldsChunks kvs rest ++ tl = commaFieldsChunks kvs (rest ++ tl) := by
  induction kvs generalizing rest with
  | nil => rfl
  | cons kv kvs ih =>
    rcases kv with ⟨k, v⟩
    simp only [commaFieldsChunks, List.cons_append, fieldChunk_append, ih]

theorem parseCommaFields_chunks (kvs : List (String × String)) (rest : List Char) :
    parseCommaFields (kvs.map Prod.fst) (commaFieldsChunks kvs rest)
      = some (kvs.map Prod.snd, rest) := by
  induction kvs generalizing rest with
  | nil => rfl
  | cons kv kvs ih =>
    rcases kv with ⟨k, v⟩
    simp only [commaFieldsChunks, List.map_cons, parseCommaFields, stripPrefixChars_cons,
      parseField_chunk, ih]

theorem stringify_append_tail (r : MorganRecord) (tail : List Char) :
    stringifyMorganRecordData r ++ tail
      = '\x7b' :: fieldChunk "method" r.method
          (commaFieldsChunks (morganTailFields r) ('\x7d' :: tail)) := by
  simp only [stringifyMorganRecordData, List.cons_append, fieldChunk_append,
    commaFieldsChunks_append, List.singleton_append, List.nil_append]

theorem parseMorganJSONData_stringify (r : MorganRecord) (tail : List Char)
    (ht : tail.all jsonWhitespace = true) :
    parseMorganJSONData (stringifyMorganRecordData r ++ tail) = some r := by
  have hpcf := parseCommaFields_chunks (morganTailFields r) ('\x7d' :: tail)
  simp only [morganTailFields, List.map_cons, List.map_nil] at hpcf
  rw [stringify_append_tail, parseMorganJSONData]
  simp only [morganTailFields]
  simp only [stripPrefixChars_cons, parseField_chunk, hpcf, Option.bind_eq_bind,
    Option.some_bind]
  rw [if_pos ht]
  rfl

theorem divBy1000_toRat (d : DecNum) : d.divBy1000.toRat = d.toRat / 1000 := by
  unfold DecNum.toRat DecNum.divBy1000
  rw [pow_add, ← div_div]
  norm_num

/-- C3: in structured mode, on the line the format function emits for a
request whose response-time token parses to the number `d`, the adapter
emits a record whose `duration` field is `d / 1000` rendered with
`toFixed(6)` and whose `durationMs` metadata is exactly the parsed
response-time; dividing by 1000 adds three to the decimal scale, which is
exact division of the denoted value by 1000. -/
theorem streamWrite_json_duration (t : MorganTokens) (enableRequestId : Bool) (d : DecNum)
    (h : parseFloat t.responseTime = some d) :
    streamWrite true (formatLogJSON enableRequestId t ++ "\n")
      = LogCall.info ("api call " ++ t.url)
          (some (LogMeta.details (morganRecordOf enableRequestId t) (some d))) ∧
    (morganRecordOf enableRequestId t).duration = toFixed6 d.divBy1000 ∧
    d.divBy1000.toRat = d.toRat / 1000 := by
  have hparse : parseMorganJSON (formatLogJSON enableRequestId t ++ "\n")
      = some (morganRecordOf enableRequestId t) := by
    unfold parseMorganJSON formatLogJSON stringifyMorganRecord
    rw [String.data_append]
    exact parseMorganJSONData_stringify (morganRecordOf enableRequestId t) ['\n'] (by decide)
  refine ⟨?_, by simp [morganRecordOf, h], divBy1000_toRat d⟩
  rw [streamWrite, if_pos rfl, hparse]
  have hrt : (morganRecordOf enableRequestId t).responseTime = t.responseTime := rfl
  have hpath : (morganRecordOf enableRequestId t).path = t.url := rfl
  dsimp only
  rw [hrt, hpath, h]

/-- Closed witness for C3 at the spec's example: response-time `15.234`
yields `duration` `"0.015234"` (which is `15.234 / 1000` to six decimal
places) and `durationMs` `15.234`. -/
theorem streamWrite_json_duration_witness :
    parseFloat "15.234" = some ⟨false, 15234, 3⟩ ∧
    toFixed6 (DecNum.mk false 15234 3).divBy1000 = "0.015234" ∧
    (DecNum.mk false 15234 3).toRat = 15234 / 1000 ∧
    streamWrite true (formatLogJSON false sampleTokens ++ "\n")
      = LogCall.info ("api call " ++ sampleTokens.url)
          (some (LogMeta.details (morganRecordOf false sampleTokens)
            (some ⟨false, 15234, 3⟩))) := by
  refine ⟨by decide, by decide, ?_, ?_⟩
  · norm_num [DecNum.toRat]
  · exact (streamWrite_json_duration sampleTokens false ⟨false, 15234, 3⟩ (by decide)).1

set_option maxHeartbeats 800000 in
/-- C7: every bootstrap run installs the middleware pipeline in the fixed
order: request-context establishment, then helmet security headers, then
session resolution, then — exactly when the defaulted log level is truthy
— morgan request logging last; no middleware is installed after this
prefix, so correlation context always precedes logging and session
resolution always precedes the route binding and dispatch-engine
construction that follow. -/
theorem middlewarePipelineOrder (opts : Options) (env : Option String)
    (le : Option ErrnoException) :
    (startExpressApp opts env le).trace
        = ([Event.useSetRequestContext, Event.useHelmet, Event.useSessionLoader]
            ++ (if (resolveLogLevel opts.http.logLevel).truthy then [Event.useMorgan] else []))
          ++ ((startExpressApp opts env le).trace).drop
              (if (resolveLogLevel opts.http.logLevel).truthy then 4 else 3)
    ∧ (∀ e ∈ ((startExpressApp opts env le).trace).drop
          (if (resolveLogLevel opts.http.logLevel).truthy then 4 else 3),
        mwEvent e = false)
    ∧ (Event.useMorgan ∈ (startExpressApp opts env le).trace →
        ((startExpressApp opts env le).trace).indexOf Event.useSetRequestContext
          < ((startExpressApp opts env le).trace).indexOf Event.useMorgan)
    ∧ (Event.bindSpecificRoutes ∈ (startExpressApp opts env le).trace →
        ((startExpressApp opts env le).trace).indexOf Event.useSessionLoader
          < ((startExpressApp opts env le).trace).indexOf Event.bindSpecificRoutes) := by
  refine ⟨?_, ?_, ?_, ?_⟩ <;>
    rcases hM : createNestAppModule opts.controllers with e | regs <;>
    cases ht : (resolveLogLevel opts.http.logLevel).truthy <;>
    rcases hb : opts.http.beforeRoutingControllerLaunchHook with _ | (_ | bmsg) <;>
    rcases ha : opts.http.afterRoutingControllerLaunchHook with _ | (_ | amsg) <;>
    cases hp : opts.http.preventListen <;>
    rcases le with _ | err <;>
    simp [startExpressApp, runHook, hM, ht, hb, ha, hp, mwEvent, List.indexOf_cons,
      cond_eq_if]

theorem resolveLogLevel_truthy_iff (cfg : Option LogLevelV) :
    (resolveLogLevel cfg).truthy = true
      ↔ (cfg = none ∨ ∃ v, cfg = some v ∧ v.truthy = true) := by
  rcases cfg with _ | v
  · simp [resolveLogLevel, LogLevelV.truthy]
  · simp [resolveLogLevel]

/-- C2 counterexample: with the log-level option absent (`undefined`),
line 53 substitutes the default format function, which is truthy, so the
morgan logging middleware IS installed — the claim says it must not be. -/
theorem morganInstalled_counterexample :
    optsPlain.http.logLevel = none ∧
    Event.useMorgan ∈ (startExpressApp optsPlain none none).trace := by
  constructor
  · rfl
  · decide

/-- C2 (amended): the request-logging middleware is installed iff the
log-level option after defaulting is truthy — that is, iff the option is
absent (line 53 then installs the default format function) or a supplied
truthy value; only a supplied falsy value (such as `false`) disables
access logging. -/
theorem morganInstalled_iff (opts : Options) (env : Option String)
    (le : Option ErrnoException) :
    Event.useMorgan ∈ (startExpressApp opts env le).trace
      ↔ (opts.http.logLevel = none
          ∨ ∃ v, opts.http.logLevel = some v ∧ v.truthy = true) := by
  rw [← resolveLogLevel_truthy_iff]
  rcases hM : createNestAppModule opts.controllers with e | regs <;>
    cases ht : (resolveLogLevel opts.http.logLevel).truthy <;>
    rcases hb : opts.http.beforeRoutingControllerLaunchHook with _ | (_ | bmsg) <;>
    rcases ha : opts.http.afterRoutingControllerLaunchHook with _ | (_ | amsg) <;>
    cases hp : opts.http.preventListen <;>
    rcases le with _ | err <;>
    simp [startExpressApp, runHook, hM, ht, hb, ha, hp]

/-- C8: with a duplicate-free controller set, an absent hook is a no-op;
a failing before hook aborts bootstrap before the Nest app is constructed
and propagates its failure; a failing after hook aborts before `listen`
and propagates; and when both hooks are supplied and succeed, each runs
exactly once, the before hook before dispatch-engine construction and the
after hook after its initialization, in that order. -/
theorem hooksLifecycle (opts : Options) (env : Option String) (le : Option ErrnoException)
    (hnd : opts.controllers.Nodup) :
    (opts.http.beforeRoutingControllerLaunchHook = none →
      Event.beforeHook ∉ (startExpressApp opts env le).trace) ∧
    (opts.http.afterRoutingControllerLaunchHook = none →
      Event.afterHook ∉ (startExpressApp opts env le).trace) ∧
    (∀ msg, opts.http.beforeRoutingControllerLaunchHook = some (HookSpec.fails msg) →
      (startExpressApp opts env le).outcome = Except.error (BootError.hookFailure msg) ∧
      ((startExpressApp opts env le).trace).count Event.beforeHook = 1 ∧
      Event.nestCreate ∉ (startExpressApp opts env le).trace ∧
      Event.nestInit ∉ (startExpressApp opts env le).trace ∧
      Event.afterHook ∉ (startExpressApp opts env le).trace ∧
      Event.listen ∉ (startExpressApp opts env le).trace) ∧
    (∀ msg, opts.http.beforeRoutingControllerLaunchHook = some HookSpec.succeeds →
      opts.http.afterRoutingControllerLaunchHook = some (HookSpec.fails msg) →
      (startExpressApp opts env le).outcome = Except.error (BootError.hookFailure msg) ∧
      ((startExpressApp opts env le).trace).count Event.beforeHook = 1 ∧
      ((startExpressApp opts env le).trace).count Event.afterHook = 1 ∧
      Event.listen ∉ (startExpressApp opts env le).trace) ∧
    (opts.http.beforeRoutingControllerLaunchHook = some HookSpec.succeeds →
      opts.http.afterRoutingControllerLaunchHook = some HookSpec.succeeds →
      ((startExpressApp opts env le).trace).count Event.beforeHook = 1 ∧
      ((startExpressApp opts env le).trace).count Event.afterHook = 1 ∧
      Event.nestCreate ∈ (startExpressApp opts env le).trace ∧
      Event.nestInit ∈ (startExpressApp opts env le).trace ∧
      ((startExpressApp opts env le).trace).indexOf Event.beforeHook
        < ((startExpressApp opts env le).trace).indexOf Event.nestCreate ∧
      ((startExpressApp opts env le).trace).indexOf Event.nestCreate
        < ((startExpressApp opts env le).trace).indexOf Event.nestInit ∧
      ((startExpressApp opts env le).trace).indexOf Event.nestInit
        < ((startExpressApp opts env le).trace).indexOf Event.afterHook) := by
  have hM := createNestAppModule_ok opts.controllers hnd
  refine ⟨?_, ?_, ?_, ?_, ?_⟩
  · intro h0
    cases ht : (resolveLogLevel opts.http.logLevel).truthy <;>
      rcases ha : opts.http.afterRoutingControllerLaunchHook with _ | (_ | amsg) <;>
      cases hp : opts.http.preventListen <;>
      rcases le with _ | err <;>
      simp [startExpressApp, runHook, hM, ht, h0, ha, hp]
  · intro h0
    cases ht : (resolveLogLevel opts.http.logLevel).truthy <;>
      rcases hb : opts.http.beforeRoutingControllerLaunchHook with _ | (_ | bmsg) <;>
      cases hp : opts.http.preventListen <;>
      rcases le with _ | err <;>
      simp [startExpressApp, runHook, hM, ht, hb, h0, hp]
  · intro msg h0
    cases ht : (resolveLogLevel opts.http.logLevel).truthy <;>
      simp [startExpressApp, runHook, hM, ht, h0, List.count_append, List.count_cons]
  · intro msg h0 h1
    cases ht : (resolveLogLevel opts.http.logLevel).truthy <;>
      simp [startExpressApp, runHook, hM, ht, h0, h1, List.count_append, List.count_cons]
  · intro h0 h1
    cases ht : (resolveLogLevel opts.http.logLevel).truthy <;>
      cases hp : opts.http.preventListen <;>
      rcases le with _ | err <;>
      simp [startExpressApp, runHook, hM, ht, h0, h1, hp, List.count_append,
        List.count_cons]

/-- Closed witness for C8 with both hooks supplied and succeeding. -/
theorem hooksLifecycle_witness :
    ((startExpressApp optsHooks none none).trace).count Event.beforeHook = 1 ∧
    ((startExpressApp optsHooks none none).trace).count Event.afterHook = 1 ∧
    Event.nestCreate ∈ (startExpressApp optsHooks none none).trace ∧
    Event.nestInit ∈ (startExpressApp optsHooks none none).trace ∧
    ((startExpressApp optsHooks none none).trace).indexOf Event.beforeHook
      < ((startExpressApp optsHooks none none).trace).indexOf Event.nestCreate ∧
    ((startExpressApp optsHooks none none).trace).indexOf Event.nestCreate
      < ((startExpressApp optsHooks none none).trace).indexOf Event.nestInit ∧
    ((startExpressApp optsHooks none none).trace).indexOf Event.nestInit
      < ((startExpressApp optsHooks none none).trace).indexOf Event.afterHook :=
  (hooksLifecycle optsHooks none none (by decide)).2.2.2.2 rfl rfl

/-- C10: the caller's validation configuration is discarded: lines 79-82
overwrite `options.http.validation` with exactly `{whitelist: true,
forbidNonWhitelisted: true}` for every input, and the validation pipe of
lines 154-157 is always constructed with `transform: true` and that exact
overwritten configuration, whatever the caller supplied. -/
theorem validationPipeOverwrite (opts : Options) (env : Option String)
    (le : Option ErrnoException) (configured : Option ValidatorOptions) :
    overwriteValidation configured = ⟨true, true⟩ ∧
    (∀ cfg, Event.useValidationPipe cfg ∈ (startExpressApp opts env le).trace →
      cfg = ⟨true, ⟨true, true⟩⟩) ∧
    (opts.controllers.Nodup →
      (∀ msg, opts.http.beforeRoutingControllerLaunchHook ≠ some (HookSpec.fails msg)) →
      Event.useValidationPipe ⟨true, ⟨true, true⟩⟩ ∈ (startExpressApp opts env le).trace) := by
  refine ⟨rfl, ?_, ?_⟩
  · intro cfg hmem
    rcases hM : createNestAppModule opts.controllers with e | regs <;>
      cases ht : (resolveLogLevel opts.http.logLevel).truthy <;>
      rcases hb : opts.http.beforeRoutingControllerLaunchHook with _ | (_ | bmsg) <;>
      rcases ha : opts.http.afterRoutingControllerLaunchHook with _ | (_ | amsg) <;>
      cases hp : opts.http.preventListen <;>
      rcases le with _ | err <;>
      simp [startExpressApp, runHook, hM, ht, hb, ha, hp, overwriteValidation] at hmem <;>
      simp [hmem]
  · intro hnd hbz
    have hM := createNestAppModule_ok opts.controllers hnd
    rcases hb : opts.http.beforeRoutingControllerLaunchHook with _ | (_ | bmsg)
    · cases ht : (resolveLogLevel opts.http.logLevel).truthy <;>
        rcases ha : opts.http.afterRoutingControllerLaunchHook with _ | (_ | amsg) <;>
        cases hp : opts.http.preventListen <;>
        rcases le with _ | err <;>
        simp [startExpressApp, runHook, hM, ht, hb, ha, hp, overwriteValidation]
    · cases ht : (resolveLogLevel opts.http.logLevel).truthy <;>
        rcases ha : opts.http.afterRoutingControllerLaunchHook with _ | (_ | amsg) <;>
        cases hp : opts.http.preventListen <;>
        rcases le with _ | err <;>
        simp [startExpressApp, runHook, hM, ht, hb, ha, hp, overwriteValidation]
    · exact absurd hb (hbz bmsg)

/-- Closed witness for C10 with a caller-supplied permissive validation
object, which is overwritten. -/
theorem validationPipeOverwrite_witness :
    overwriteValidation (some ⟨false, false⟩) = ⟨true, true⟩ ∧
    Event.useValidationPipe ⟨true, ⟨true, true⟩⟩
      ∈ (startExpressApp optsHooks none none).trace :=
  ⟨(validationPipeOverwrite optsHooks none none (some ⟨false, false⟩)).1,
    (validationPipeOverwrite optsHooks none none (some ⟨false, false⟩)).2.2
      (by decide) (by simp [optsHooks])⟩

/-- Closed witness for C1 on a concrete duplicated controller set. -/
theorem createNestAppModule_registry_witness :
    (match createNestAppModule ["B", "A", "B"] with
      | Except.error e =>
          ¬(["B", "A", "B"] : List String).Nodup ∧
          (∃ x, 2 ≤ (["B", "A", "B"] : List String).count x) ∧
          e.message = "duplicated-controller" ∧ e.status = 400 ∧
          ∀ x, x ∈ e.controllerDuplicatedNames ↔ 2 ≤ (["B", "A", "B"] : List String).count x
      | Except.ok registered =>
          (["B", "A", "B"] : List String).Nodup ∧
          registered.length = (["B", "A", "B"] : List String).length) :=
  createNestAppModule_registry ["B", "A", "B"]

/-- Closed witness for C2's amended statement at a concrete options
object with the log-level option absent. -/
theorem morganInstalled_iff_witness :
    Event.useMorgan ∈ (startExpressApp optsPlain none none).trace
      ↔ (optsPlain.http.logLevel = none
          ∨ ∃ v, optsPlain.http.logLevel = some v ∧ v.truthy = true) :=
  morganInstalled_iff optsPlain none none

/-- Closed witness for C7 at a concrete options object. -/
theorem middlewarePipelineOrder_witness :
    (startExpressApp optsHooks none none).trace
        = ([Event.useSetRequestContext, Event.useHelmet, Event.useSessionLoader]
            ++ (if (resolveLogLevel optsHooks.http.logLevel).truthy then [Event.useMorgan] else []))
          ++ ((startExpressApp optsHooks none none).trace).drop
              (if (resolveLogLevel optsHooks.http.logLevel).truthy then 4 else 3)
    ∧ (∀ e ∈ ((startExpressApp optsHooks none none).trace).drop
          (if (resolveLogLevel optsHooks.http.logLevel).truthy then 4 else 3),
        mwEvent e = false)
    ∧ (Event.useMorgan ∈ (startExpressApp optsHooks none none).trace →
        ((startExpressApp optsHooks none none).trace).indexOf Event.useSetRequestContext
          < ((startExpressApp optsHooks none none).trace).indexOf Event.useMorgan)
    ∧ (Event.bindSpecificRoutes ∈ (startExpressApp optsHooks none none).trace →
        ((startExpressApp optsHooks none none).trace).indexOf Event.useSessionLoader
          < ((startExpressApp optsHooks none none).trace).indexOf Event.bindSpecificRoutes) :=
  middlewarePipelineOrder optsHooks none none
